import Mathlib

/-!
Verification of the temporal-encryption payload codec
(`src/temporal_encryption/codec.py`).

Modelling conventions:
- Byte strings are `List Nat` (one entry per byte).
- Python `str` values that the code compares after `bytes.decode()` are
  represented by an injective byte encoding `strToBytes`; equality of the
  decoded strings coincides with equality of the encodings, which is what
  the code's comparisons observe.
- The AES-256-GCM construction (`cryptography.hazmat...AESGCM`) is an
  external library; it is abstracted as an `AEAD` record (already bound to
  one key, as the code binds `AESGCM(key)` at construction) whose `decrypt`
  returns `none` where the library raises `InvalidTag`.
- Protobuf serialization (`Payload.SerializeToString` / `Payload.FromString`)
  is likewise external and abstracted as a `Serde` record; `des` returns
  `none` where the library raises a parse error.
- `os.urandom(12)` is modelled by a nonce source `nr : Nat → Bytes` giving
  the nonce consumed by the i-th payload of an `encode` call.
- Python exceptions raised by the codec become `Except` errors:
  `ValueError` on key mismatch is `CodecError.keyMismatch`, the library's
  `InvalidTag` is `CodecError.integrityFailure`, a protobuf parse failure is
  `CodecError.parseFailure`, and construction/provisioning `ValueError`s are
  the `ConfigError` constructors.
-/

namespace TemporalEncryption

/-- A byte string: one natural number per byte. -/
abbrev Bytes := List Nat

/-- The byte encoding of a Python string, modelling `str.encode()`. It is
injective, so equality of encoded strings coincides with equality of the
strings, which is all the codec's comparisons observe. -/
def strToBytes (s : String) : Bytes := s.toList.map Char.toNat

/-- A Temporal payload: a metadata map from string keys to byte values, and
a data field of bytes. -/
structure Payload where
  metadata : List (String × Bytes)
  data : Bytes

deriving instance DecidableEq, Repr for Payload

/-- The fixed marker stored under the metadata key given in the source:
`b'binary/encrypted'`. -/
def marker : Bytes := strToBytes "binary/encrypted"

/-- Abstraction of the key-bound AES-256-GCM object `AESGCM(key)`:
`encrypt nonce plaintext` returns ciphertext-plus-tag, `decrypt nonce ct`
returns the plaintext or `none` where the library raises `InvalidTag`. -/
structure AEAD where
  encrypt : Bytes → Bytes → Bytes
  decrypt : Bytes → Bytes → Option Bytes

/-- Abstraction of protobuf payload serialization:
`ser` models `Payload.SerializeToString`, `des` models `Payload.FromString`
with `none` standing for a raised parse error. -/
structure Serde where
  ser : Payload → Bytes
  des : Bytes → Option Payload

/-- The codec state after `EncryptionCodec.__init__` succeeded: the key
identifier and the key-bound cipher object `self._encryptor`. -/
structure EncryptionCodec where
  key_id : String
  encryptor : AEAD

/-- Errors raised during construction and key provisioning (`ValueError` in
the source, distinguished here by message). -/
inductive ConfigError where
  | invalidKeyLength
  | missingKey
  | malformedHex

deriving instance DecidableEq, Repr for ConfigError

/-- Errors raised during `decode`: the key-mismatch `ValueError` (carrying
the found and the expected identifier, as the message does), the library's
`InvalidTag`, and a protobuf parse failure from `Payload.FromString`. -/
inductive CodecError where
  | keyMismatch (found expected : Bytes)
  | integrityFailure
  | parseFailure

deriving instance DecidableEq, Repr for CodecError

/-- The metadata lookup `p.metadata.get(k, b'')`. -/
def getMeta (p : Payload) (k : String) : Bytes :=
  (p.metadata.lookup k).getD []

/-- The constructor `EncryptionCodec.__init__`: reject key material whose
length is not 32 bytes, otherwise bind the cipher to the key.
`mkCipher` abstracts the library constructor `AESGCM`. -/
def EncryptionCodec.build (mkCipher : Bytes → AEAD) (kid : String) (key : Bytes) :
    Except ConfigError EncryptionCodec :=
  if key.length ≠ 32 then .error .invalidKeyLength
  else .ok { key_id := kid, encryptor := mkCipher key }

/-- The body of `encode`'s list comprehension for one payload with its fresh
nonce: metadata records the marker and the codec's key identifier, data is
`nonce + self._encryptor.encrypt(nonce, data, None)` as in `_encrypt`. -/
def encodeOne (c : EncryptionCodec) (S : Serde) (nonce : Bytes) (p : Payload) : Payload :=
  { metadata := [("encoding", marker), ("encryption-key-id", strToBytes c.key_id)],
    data := nonce ++ c.encryptor.encrypt nonce (S.ser p) }

/-- `encode`'s traversal, carrying the index of the next nonce to consume
(the i-th payload consumes the i-th `os.urandom(12)` draw). -/
def EncryptionCodec.encodeFrom (c : EncryptionCodec) (S : Serde) (nr : Nat → Bytes) :
    Nat → List Payload → List Payload
  | _, [] => []
  | i, p :: rest => encodeOne c S (nr i) p :: c.encodeFrom S nr (i + 1) rest

/-- `EncryptionCodec.encode`: one envelope per payload, in order. -/
def EncryptionCodec.encode (c : EncryptionCodec) (S : Serde) (nr : Nat → Bytes)
    (ps : List Payload) : List Payload :=
  c.encodeFrom S nr 0 ps

/-- The body of `decode`'s loop for one payload: pass through when the
`encoding` metadata is not the marker; raise on a key-identifier mismatch;
otherwise split data at byte 12 as in `_decrypt`, decrypt, and parse. -/
def decodeOne (c : EncryptionCodec) (S : Serde) (p : Payload) : Except CodecError Payload :=
  if getMeta p "encoding" ≠ marker then .ok p
  else if getMeta p "encryption-key-id" ≠ strToBytes c.key_id then
    .error (.keyMismatch (getMeta p "encryption-key-id") (strToBytes c.key_id))
  else match c.encryptor.decrypt (p.data.take 12) (p.data.drop 12) with
    | none => .error .integrityFailure
    | some pt =>
      match S.des pt with
      | none => .error .parseFailure
      | some q => .ok q

/-- `EncryptionCodec.decode`: the sequential loop; a raised error aborts the
whole call and no partial result list is returned. -/
def EncryptionCodec.decode (c : EncryptionCodec) (S : Serde) :
    List Payload → Except CodecError (List Payload)
  | [] => .ok []
  | p :: rest =>
    match decodeOne c S p with
    | .error e => .error e
    | .ok q =>
      match c.decode S rest with
      | .error e => .error e
      | .ok qs => .ok (q :: qs)

/-- One hexadecimal digit of `bytes.fromhex`. -/
def hexDigit (ch : Char) : Option Nat :=
  if '0' ≤ ch ∧ ch ≤ '9' then some (ch.toNat - 48)
  else if 'a' ≤ ch ∧ ch ≤ 'f' then some (ch.toNat - 87)
  else if 'A' ≤ ch ∧ ch ≤ 'F' then some (ch.toNat - 55)
  else none

/-- Pairwise hexadecimal decoding of `bytes.fromhex`: two digits per byte,
`none` where the library raises `ValueError`. -/
def hexPairs : List Char → Option Bytes
  | [] => some []
  | [_] => none
  | c1 :: c2 :: rest => do
    let h ← hexDigit c1
    let l ← hexDigit c2
    let r ← hexPairs rest
    pure ((16 * h + l) :: r)

/-- `bytes.fromhex` on a string. -/
def hexDecode (s : String) : Option Bytes := hexPairs s.toList

/-- `load_encryption_codec`, with the process environment abstracted as a
map from variable names to optional values. An unset or empty
`TEMPORAL_ENCRYPTION_KEY` fails fast (`if not key_hex`); otherwise the hex
string is decoded and the constructor is invoked with the key identifier,
defaulting to the fixed string when the identifier variable is unset. -/
def load_encryption_codec (mkCipher : Bytes → AEAD) (env : String → Option String) :
    Except ConfigError EncryptionCodec :=
  match env "TEMPORAL_ENCRYPTION_KEY" with
  | none => .error .missingKey
  | some kh =>
    if kh = "" then .error .missingKey
    else
      match hexDecode kh with
      | none => .error .malformedHex
      | some key =>
        EncryptionCodec.build mkCipher
          ((env "TEMPORAL_ENCRYPTION_KEY_ID").getD "default-key") key

/-- Flip bit `k` of one byte. -/
def flipByte (b k : Nat) : Nat := b ^^^ 2 ^ k

/-- Flip bit `k` of the byte at position `j`. -/
def flipBitAux : Bytes → Nat → Nat → Bytes
  | [], _, _ => []
  | b :: rest, 0, k => flipByte b k :: rest
  | b :: rest, j + 1, k => b :: flipBitAux rest j k

/-- Flip the single bit with index `i` of a byte string (byte `i / 8`,
bit `i % 8` within that byte). -/
def flipBit (d : Bytes) (i : Nat) : Bytes := flipBitAux d (i / 8) (i % 8)

/-- Corrupt one payload by flipping bit `i` of its data. -/
def flipData (p : Payload) (i : Nat) : Payload :=
  { p with data := flipBit p.data i }

/-- Corrupt the batch element at position `j` by flipping bit `i` of its
data; other elements are untouched. -/
def tamperAt : List Payload → Nat → Nat → List Payload
  | [], _, _ => []
  | p :: rest, 0, i => flipData p i :: rest
  | p :: rest, j + 1, i => p :: tamperAt rest j i

/-- The nonce source yields 12-byte nonces, as `os.urandom(12)` does. -/
def NonceLen12 (nr : Nat → Bytes) : Prop := ∀ i, (nr i).length = 12

/-- Functional correctness of the authenticated cipher: decrypting a
ciphertext under the nonce it was produced with recovers the plaintext. -/
def AEADCorrect (A : AEAD) : Prop :=
  ∀ n b, A.decrypt n (A.encrypt n b) = some b

/-- Authentication of the cipher against ciphertext corruption: any
single-bit flip of a valid ciphertext-plus-tag makes decryption fail
(the idealization of the GCM tag check). -/
def AEADCtFlipDetect (A : AEAD) : Prop :=
  ∀ n b k, k < 8 * (A.encrypt n b).length →
    A.decrypt n (flipBit (A.encrypt n b) k) = none

/-- Authentication of the cipher against nonce corruption: decrypting a
valid ciphertext under a nonce with one bit flipped fails. -/
def AEADNonceFlipDetect (A : AEAD) : Prop :=
  ∀ n b k, k < 8 * n.length →
    A.decrypt (flipBit n k) (A.encrypt n b) = none

/-! Concrete instances used to exercise the theorems on closed inputs: a
toy authenticated cipher whose tag is the xor-fold of plaintext, nonce and
key (enough to detect every single-bit flip), and a serializer that stores
the data field of a metadata-free payload. -/

/-- Xor-fold of a byte string. -/
def xorFold (l : Bytes) : Nat := l.foldr (fun a b => a ^^^ b) 0

/-- The tag of the toy cipher. -/
def toyTag (key n b : Bytes) : Nat := xorFold b ^^^ xorFold n ^^^ xorFold key

/-- A toy authenticated cipher: ciphertext is the plaintext followed by a
one-byte xor tag over plaintext, nonce and key. -/
def toyAEAD (key : Bytes) : AEAD where
  encrypt n b := b ++ [toyTag key n b]
  decrypt n c :=
    match c.getLast? with
    | none => none
    | some t => if t = toyTag key n c.dropLast then some c.dropLast else none

/-- A toy serializer: metadata-free payloads are stored as their data. -/
def toySerde : Serde where
  ser p := p.data
  des b := some { metadata := [], data := b }

/-- A concrete codec over the toy cipher with the 32-byte all-zero key. -/
def toyCodec : EncryptionCodec :=
  { key_id := "default-key", encryptor := toyAEAD (List.replicate 32 0) }

/-- A concrete 12-byte nonce source. -/
def toyNr (i : Nat) : Bytes := List.replicate 11 0 ++ [i % 256]

/-- A concrete metadata-free payload. -/
def pwA : Payload := { metadata := [], data := [112, 105, 110, 103] }

/-- A second concrete metadata-free payload, distinguishable from the
first. -/
def pwB : Payload := { metadata := [], data := [112, 111, 110, 103] }

/-- A concrete envelope carrying the recognized marker but a key identifier
different from the toy codec's. -/
def pwM : Payload :=
  { metadata := [("encoding", marker), ("encryption-key-id", strToBytes "other-key")],
    data := [] }

/-- A concrete environment with no variables set. -/
def envA : String → Option String := fun _ => none

/-- A concrete environment setting only the key variable, to the hex
string of the one-byte key 0x00. -/
def envB : String → Option String :=
  fun v => if v = "TEMPORAL_ENCRYPTION_KEY" then some "00" else none

/-! Unfolding lemmas for the three branches of the decode loop body. -/

lemma decodeOne_pass (c : EncryptionCodec) (S : Serde) (p : Payload)
    (h : getMeta p "encoding" ≠ marker) : decodeOne c S p = .ok p := by
  simp [decodeOne, h]

lemma decodeOne_mismatch (c : EncryptionCodec) (S : Serde) (p : Payload)
    (h1 : getMeta p "encoding" = marker)
    (h2 : getMeta p "encryption-key-id" ≠ strToBytes c.key_id) :
    decodeOne c S p =
      .error (.keyMismatch (getMeta p "encryption-key-id") (strToBytes c.key_id)) := by
  simp [decodeOne, h1, h2]

lemma decodeOne_matched_fail (c : EncryptionCodec) (S : Serde) (p : Payload)
    (h1 : getMeta p "encoding" = marker)
    (h2 : getMeta p "encryption-key-id" = strToBytes c.key_id)
    (hd : c.encryptor.decrypt (p.data.take 12) (p.data.drop 12) = none) :
    decodeOne c S p = .error .integrityFailure := by
  simp [decodeOne, h1, h2, hd]

lemma decodeOne_matched_ok (c : EncryptionCodec) (S : Serde) (p : Payload) (pt : Bytes)
    (q : Payload)
    (h1 : getMeta p "encoding" = marker)
    (h2 : getMeta p "encryption-key-id" = strToBytes c.key_id)
    (hd : c.encryptor.decrypt (p.data.take 12) (p.data.drop 12) = some pt)
    (hs : S.des pt = some q) :
    decodeOne c S p = .ok q := by
  simp [decodeOne, h1, h2, hd, hs]

/-! The metadata written by the encode comprehension. -/

lemma getMeta_encodeOne_encoding (c : EncryptionCodec) (S : Serde) (n : Bytes)
    (p : Payload) : getMeta (encodeOne c S n p) "encoding" = marker := rfl

lemma getMeta_encodeOne_keyid (c : EncryptionCodec) (S : Serde) (n : Bytes)
    (p : Payload) :
    getMeta (encodeOne c S n p) "encryption-key-id" = strToBytes c.key_id := rfl

lemma encodeOne_data (c : EncryptionCodec) (S : Serde) (n : Bytes) (p : Payload) :
    (encodeOne c S n p).data = n ++ c.encryptor.encrypt n (S.ser p) := rfl

lemma encodeOne_data_take (c : EncryptionCodec) (S : Serde) (n : Bytes) (p : Payload)
    (hn : n.length = 12) : (encodeOne c S n p).data.take 12 = n := by
  rw [encodeOne_data, ← hn, List.take_left]

lemma encodeOne_data_drop (c : EncryptionCodec) (S : Serde) (n : Bytes) (p : Payload)
    (hn : n.length = 12) :
    (encodeOne c S n p).data.drop 12 = c.encryptor.encrypt n (S.ser p) := by
  rw [encodeOne_data, ← hn, List.drop_left]

/-- Decoding one freshly encoded envelope recovers the payload, given the
cipher and the serializer behave on it. -/
lemma decodeOne_encodeOne (c : EncryptionCodec) (S : Serde) (n : Bytes) (p : Payload)
    (hn : n.length = 12)
    (hA : c.encryptor.decrypt n (c.encryptor.encrypt n (S.ser p)) = some (S.ser p))
    (hS : S.des (S.ser p) = some p) :
    decodeOne c S (encodeOne c S n p) = .ok p := by
  refine decodeOne_matched_ok c S _ (S.ser p) p (getMeta_encodeOne_encoding c S n p)
    (getMeta_encodeOne_keyid c S n p) ?_ hS
  rw [encodeOne_data_take c S n p hn, encodeOne_data_drop c S n p hn]
  exact hA

/-! Unfolding lemmas for the decode loop. -/

lemma decode_cons_err (c : EncryptionCodec) (S : Serde) (p : Payload)
    (ps : List Payload) (e : CodecError) (h : decodeOne c S p = .error e) :
    c.decode S (p :: ps) = .error e := by
  simp [EncryptionCodec.decode, h]

lemma decode_cons_ok (c : EncryptionCodec) (S : Serde) (p q : Payload)
    (ps : List Payload) (h : decodeOne c S p = .ok q) :
    c.decode S (p :: ps) = (c.decode S ps).map (q :: ·) := by
  rw [EncryptionCodec.decode, h]
  cases c.decode S ps <;> simp [Except.map]

lemma decode_append (c : EncryptionCodec) (S : Serde) (xs ys : List Payload) :
    c.decode S (xs ++ ys) =
      (c.decode S xs).bind (fun rs => (c.decode S ys).map (rs ++ ·)) := by
  induction xs with
  | nil =>
    cases h : c.decode S ys <;> simp [EncryptionCodec.decode, h, Except.bind, Except.map]
  | cons p xs ih =>
    rw [List.cons_append]
    cases hp : decodeOne c S p with
    | error e =>
      rw [decode_cons_err c S p (xs ++ ys) e hp, decode_cons_err c S p xs e hp]
      rfl
    | ok q =>
      rw [decode_cons_ok c S p q (xs ++ ys) hp, decode_cons_ok c S p q xs hp, ih]
      cases c.decode S xs with
      | error e => rfl
      | ok rs =>
        cases c.decode S ys <;> simp [Except.bind, Except.map]

/-- Decoding the output of the encode traversal, from any start index of the
nonce source, recovers the input batch. -/
lemma decode_encodeFrom (c : EncryptionCodec) (S : Serde) (nr : Nat → Bytes)
    (hn : NonceLen12 nr) (hA : AEADCorrect c.encryptor) :
    ∀ (ps : List Payload) (i : Nat), (∀ p ∈ ps, S.des (S.ser p) = some p) →
      c.decode S (c.encodeFrom S nr i ps) = .ok ps := by
  intro ps
  induction ps with
  | nil => intro i _; rfl
  | cons p rest ih =>
    intro i hS
    rw [EncryptionCodec.encodeFrom,
      decode_cons_ok c S _ p _
        (decodeOne_encodeOne c S (nr i) p (hn i) (hA (nr i) (S.ser p))
          (hS p (List.mem_cons_self p rest))),
      ih (i + 1) (fun q hq => hS q (List.mem_cons_of_mem p hq))]
    rfl

/-! Arithmetic of single-bit flips. -/

lemma two_pow_xor_ne (x k : Nat) : x ^^^ 2 ^ k ≠ x := by
  intro h
  have h3 : x ^^^ (x ^^^ 2 ^ k) = x ^^^ x := congrArg (fun y => x ^^^ y) h
  rw [Nat.xor_cancel_left, Nat.xor_self] at h3
  exact Nat.pos_iff_ne_zero.mp (Nat.two_pow_pos k) h3

lemma flipBitAux_length (l : Bytes) : ∀ j k, (flipBitAux l j k).length = l.length := by
  induction l with
  | nil => intro j k; rfl
  | cons a rest ih =>
    intro j k
    cases j with
    | zero => simp [flipBitAux]
    | succ j => simp [flipBitAux, ih]

lemma flipBitAux_append_left (l₁ l₂ : Bytes) (k : Nat) :
    ∀ j, j < l₁.length →
      flipBitAux (l₁ ++ l₂) j k = flipBitAux l₁ j k ++ l₂ := by
  induction l₁ with
  | nil => intro j hj; exact absurd hj (by simp)
  | cons a rest ih =>
    intro j hj
    cases j with
    | zero => simp [flipBitAux]
    | succ j =>
      simp only [List.cons_append, flipBitAux]
      exact congrArg (fun t => a :: t) (ih j (by simpa using Nat.lt_of_succ_lt_succ hj))

lemma flipBitAux_append_right (l₁ l₂ : Bytes) (j k : Nat) :
    flipBitAux (l₁ ++ l₂) (l₁.length + j) k = l₁ ++ flipBitAux l₂ j k := by
  induction l₁ with
  | nil => simp
  | cons a rest ih =>
    have h : (a :: rest).length + j = (rest.length + j) + 1 := by
      simp [List.length_cons]; omega
    rw [List.cons_append, h]
    simp only [flipBitAux]
    rw [ih, List.cons_append]

lemma xorFold_cons (a : Nat) (l : Bytes) : xorFold (a :: l) = a ^^^ xorFold l := rfl

lemma xorFold_flipBitAux (k : Nat) :
    ∀ (l : Bytes) (j : Nat), j < l.length →
      xorFold (flipBitAux l j k) = xorFold l ^^^ 2 ^ k := by
  intro l
  induction l with
  | nil => intro j hj; exact absurd hj (by simp)
  | cons a rest ih =>
    intro j hj
    cases j with
    | zero =>
      simp only [flipBitAux, flipByte, xorFold_cons]
      ac_rfl
    | succ j =>
      simp only [flipBitAux, xorFold_cons]
      rw [ih j (by simpa using Nat.lt_of_succ_lt_succ hj)]
      ac_rfl

/-! The toy cipher satisfies the three cipher assumptions. -/

lemma toyAEAD_correct (key : Bytes) : AEADCorrect (toyAEAD key) := by
  intro n b
  simp [toyAEAD, List.getLast?_concat, List.dropLast_concat]

lemma toyTag_flip (key n b : Bytes) (j k : Nat) (hj : j < b.length) :
    toyTag key n (flipBitAux b j k) = toyTag key n b ^^^ 2 ^ k := by
  unfold toyTag
  rw [xorFold_flipBitAux k b j hj]
  ac_rfl

lemma toyTag_nonce_flip (key n b : Bytes) (j k : Nat) (hj : j < n.length) :
    toyTag key (flipBitAux n j k) b = toyTag key n b ^^^ 2 ^ k := by
  unfold toyTag
  rw [xorFold_flipBitAux k n j hj]
  ac_rfl

lemma toyAEAD_ctFlipDetect (key : Bytes) : AEADCtFlipDetect (toyAEAD key) := by
  intro n b k hk
  have hlen : ((toyAEAD key).encrypt n b).length = b.length + 1 := by
    simp [toyAEAD]
  rw [hlen] at hk
  have hj : k / 8 < b.length + 1 := by omega
  show (toyAEAD key).decrypt n (flipBitAux (b ++ [toyTag key n b]) (k / 8) (k % 8)) = none
  rcases Nat.lt_or_ge (k / 8) b.length with hlt | hge
  · rw [flipBitAux_append_left b [toyTag key n b] (k % 8) (k / 8) hlt]
    simp only [toyAEAD, List.getLast?_concat, List.dropLast_concat]
    rw [toyTag_flip key n b (k / 8) (k % 8) hlt]
    simp [(two_pow_xor_ne (toyTag key n b) (k % 8)).symm]
  · have heq : k / 8 = b.length + 0 := by omega
    rw [heq, flipBitAux_append_right b [toyTag key n b] 0 (k % 8)]
    simp only [flipBitAux, flipByte]
    simp only [toyAEAD, List.getLast?_concat, List.dropLast_concat]
    simp [two_pow_xor_ne (toyTag key n b) (k % 8)]

lemma toyAEAD_nonceFlipDetect (key : Bytes) : AEADNonceFlipDetect (toyAEAD key) := by
  intro n b k hk
  have hj : k / 8 < n.length := by omega
  show (toyAEAD key).decrypt (flipBitAux n (k / 8) (k % 8)) (b ++ [toyTag key n b]) = none
  simp only [toyAEAD, List.getLast?_concat, List.dropLast_concat]
  rw [toyTag_nonce_flip key n b (k / 8) (k % 8) hj]
  simp [(two_pow_xor_ne (toyTag key n b) (k % 8)).symm]

/-! Decoding a tampered envelope. -/

lemma getMeta_flipData (p : Payload) (i : Nat) (k : String) :
    getMeta (flipData p i) k = getMeta p k := rfl

/-- Flipping any single bit of a freshly encoded envelope's data makes the
decode loop body fail with the integrity error, whether the bit lands in
the 12-byte nonce prefix or in the ciphertext-plus-tag remainder. -/
lemma decodeOne_flipData_encodeOne (c : EncryptionCodec) (S : Serde) (n : Bytes)
    (p : Payload) (i : Nat) (hn : n.length = 12)
    (hfc : AEADCtFlipDetect c.encryptor) (hfn : AEADNonceFlipDetect c.encryptor)
    (hi : i < 8 * (12 + (c.encryptor.encrypt n (S.ser p)).length)) :
    decodeOne c S (flipData (encodeOne c S n p) i) = .error .integrityFailure := by
  have hdata : (flipData (encodeOne c S n p) i).data =
      flipBitAux (n ++ c.encryptor.encrypt n (S.ser p)) (i / 8) (i % 8) := rfl
  apply decodeOne_matched_fail
  · rw [getMeta_flipData]; exact getMeta_encodeOne_encoding c S n p
  · rw [getMeta_flipData]; exact getMeta_encodeOne_keyid c S n p
  · rw [hdata]
    rcases Nat.lt_or_ge (i / 8) 12 with hlt | hge
    · have hlt' : i / 8 < n.length := by omega
      rw [flipBitAux_append_left n _ (i % 8) (i / 8) hlt']
      have hlen : (flipBitAux n (i / 8) (i % 8)).length = 12 := by
        rw [flipBitAux_length]; exact hn
      rw [← hlen, List.take_left, List.drop_left]
      exact hfn n (S.ser p) i (by omega)
    · have heq : i / 8 = n.length + (i / 8 - 12) := by omega
      rw [heq, flipBitAux_append_right]
      rw [← hn, List.take_left, List.drop_left, hn]
      have hflip : flipBitAux (c.encryptor.encrypt n (S.ser p)) (i / 8 - 12) (i % 8) =
          flipBit (c.encryptor.encrypt n (S.ser p)) (i - 96) := by
        unfold flipBit
        have e1 : (i - 96) / 8 = i / 8 - 12 := by omega
        have e2 : (i - 96) % 8 = i % 8 := by omega
        rw [e1, e2]
      rw [hflip]
      exact hfc n (S.ser p) (i - 96) (by omega)

/-- Decoding an encoded batch in which envelope `j` had bit `i` of its data
flipped fails with the integrity error, for any start index of the nonce
source. -/
lemma decode_tamperAt_encodeFrom (c : EncryptionCodec) (S : Serde) (nr : Nat → Bytes)
    (hn : NonceLen12 nr) (hA : AEADCorrect c.encryptor)
    (hfc : AEADCtFlipDetect c.encryptor) (hfn : AEADNonceFlipDetect c.encryptor) :
    ∀ (ps : List Payload) (i0 j i : Nat) (p : Payload),
      (∀ q ∈ ps, S.des (S.ser q) = some q) →
      ps[j]? = some p →
      i < 8 * (12 + (c.encryptor.encrypt (nr (i0 + j)) (S.ser p)).length) →
      c.decode S (tamperAt (c.encodeFrom S nr i0 ps) j i) = .error .integrityFailure := by
  intro ps
  induction ps with
  | nil => intro i0 j i p _ hp; simp at hp
  | cons q rest ih =>
    intro i0 j i p hS hp hi
    cases j with
    | zero =>
      have hq : q = p := by simpa using hp
      subst hq
      rw [EncryptionCodec.encodeFrom]
      show c.decode S (flipData (encodeOne c S (nr i0) q) i :: c.encodeFrom S nr (i0 + 1) rest) =
        .error .integrityFailure
      exact decode_cons_err c S _ _ _
        (decodeOne_flipData_encodeOne c S (nr i0) q i (hn i0) hfc hfn
          (by simpa using hi))
    | succ j =>
      rw [EncryptionCodec.encodeFrom]
      show c.decode S (encodeOne c S (nr i0) q :: tamperAt (c.encodeFrom S nr (i0 + 1) rest) j i) =
        .error .integrityFailure
      rw [decode_cons_ok c S _ q _
        (decodeOne_encodeOne c S (nr i0) q (hn i0) (hA (nr i0) (S.ser q))
          (hS q (List.mem_cons_self q rest)))]
      rw [ih (i0 + 1) j i p (fun r hr => hS r (List.mem_cons_of_mem q hr))
        (by simpa using hp)
        (by have e : i0 + 1 + j = i0 + (j + 1) := by omega
            rw [e]; exact hi)]
      rfl

/-! Positional structure of encode and decode. -/

lemma encodeFrom_length (c : EncryptionCodec) (S : Serde) (nr : Nat → Bytes) :
    ∀ (ps : List Payload) (i : Nat), (c.encodeFrom S nr i ps).length = ps.length := by
  intro ps
  induction ps with
  | nil => intro i; rfl
  | cons p rest ih => intro i; simp [EncryptionCodec.encodeFrom, ih]

lemma encodeFrom_getElem (c : EncryptionCodec) (S : Serde) (nr : Nat → Bytes) :
    ∀ (ps : List Payload) (i j : Nat) (p : Payload), ps[j]? = some p →
      (c.encodeFrom S nr i ps)[j]? = some (encodeOne c S (nr (i + j)) p) := by
  intro ps
  induction ps with
  | nil => intro i j p hp; simp at hp
  | cons q rest ih =>
    intro i j p hp
    cases j with
    | zero =>
      have hq : q = p := by simpa using hp
      subst hq
      rw [EncryptionCodec.encodeFrom]
      simp
    | succ j =>
      rw [EncryptionCodec.encodeFrom]
      have e : i + (j + 1) = (i + 1) + j := by omega
      rw [e]
      simpa using ih (i + 1) j p (by simpa using hp)

/-- A successful decode returns one payload per input envelope, in order:
the result at position `j` is exactly the result of the loop body on the
input at position `j`. -/
lemma decode_ok_nth (c : EncryptionCodec) (S : Serde) :
    ∀ (ps rs : List Payload), c.decode S ps = .ok rs →
      rs.length = ps.length ∧
      ∀ (j : Nat) (p : Payload), ps[j]? = some p →
        ∃ q, decodeOne c S p = .ok q ∧ rs[j]? = some q := by
  intro ps
  induction ps with
  | nil =>
    intro rs h
    have hrs : rs = [] := by
      rw [EncryptionCodec.decode] at h
      exact (Except.ok.injEq _ _).mp h.symm
    subst hrs
    exact ⟨rfl, fun j p hp => by simp at hp⟩
  | cons p' rest ih =>
    intro rs h
    cases hq : decodeOne c S p' with
    | error e => rw [EncryptionCodec.decode, hq] at h; simp at h
    | ok q =>
      rw [EncryptionCodec.decode, hq] at h
      cases hr : c.decode S rest with
      | error e => rw [hr] at h; simp at h
      | ok qs =>
        rw [hr] at h
        have hrs : rs = q :: qs := ((Except.ok.injEq _ _).mp h).symm
        subst hrs
        obtain ⟨hlen, hnth⟩ := ih qs hr
        refine ⟨by simp [hlen], ?_⟩
        intro j p hp
        cases j with
        | zero =>
          have hpq : p' = p := by simpa using hp
          subst hpq
          exact ⟨q, hq, by simp⟩
        | succ j =>
          obtain ⟨q', hq', hj⟩ := hnth j p (by simpa using hp)
          exact ⟨q', hq', by simpa using hj⟩

/-! The claims. -/

/-- C1: Round-trip identity. For every payload p and every codec c, with a
12-byte nonce source, a cipher that decrypts what it encrypted, and the
protobuf round trip on p, decoding the encoding of the one-element batch
containing p returns exactly that batch. -/
theorem roundtrip_identity (c : EncryptionCodec) (S : Serde) (nr : Nat → Bytes)
    (p : Payload) (hn : NonceLen12 nr) (hA : AEADCorrect c.encryptor)
    (hS : S.des (S.ser p) = some p) :
    c.decode S (c.encode S nr [p]) = .ok [p] :=
  decode_encodeFrom c S nr hn hA [p] 0
    (fun q hq => by rw [List.mem_singleton.mp hq]; exact hS)

theorem roundtrip_identity_witness :
    NonceLen12 toyNr ∧
      toyCodec.decode toySerde (toyCodec.encode toySerde toyNr [pwA]) = .ok [pwA] :=
  ⟨fun _ => rfl,
   roundtrip_identity toyCodec toySerde toyNr pwA (fun _ => rfl)
     (toyAEAD_correct (List.replicate 32 0)) rfl⟩

/-- C2: Tamper detection. Flipping any single bit of the data of the
envelope at position j of an encoded batch makes decode fail with the
integrity error, aborting the whole batch, assuming the cipher
authenticates against single-bit corruption of ciphertext or nonce. -/
theorem tamper_detection (c : EncryptionCodec) (S : Serde) (nr : Nat → Bytes)
    (ps : List Payload) (j i : Nat) (p : Payload)
    (hn : NonceLen12 nr) (hA : AEADCorrect c.encryptor)
    (hfc : AEADCtFlipDetect c.encryptor) (hfn : AEADNonceFlipDetect c.encryptor)
    (hS : ∀ q ∈ ps, S.des (S.ser q) = some q)
    (hp : ps[j]? = some p)
    (hi : i < 8 * (12 + (c.encryptor.encrypt (nr j) (S.ser p)).length)) :
    c.decode S (tamperAt (c.encode S nr ps) j i) = .error .integrityFailure :=
  decode_tamperAt_encodeFrom c S nr hn hA hfc hfn ps 0 j i p hS hp (by simpa using hi)

theorem tamper_detection_witness :
    toyCodec.decode toySerde (tamperAt (toyCodec.encode toySerde toyNr [pwA]) 0 100) =
      .error .integrityFailure :=
  tamper_detection toyCodec toySerde toyNr [pwA] 0 100 pwA (fun _ => rfl)
    (toyAEAD_correct (List.replicate 32 0))
    (toyAEAD_ctFlipDetect (List.replicate 32 0))
    (toyAEAD_nonceFlipDetect (List.replicate 32 0))
    (fun q hq => by rw [List.mem_singleton.mp hq]; rfl) rfl (by decide)

/-- C3: Key mismatch rejection. A batch whose prefix decodes successfully
and then contains an envelope carrying the recognized marker but a key
identifier different from the codec's fails as a whole with the mismatch
error naming the found and the expected identifier; the conclusion holds
for every cipher, so no decryption of that envelope is attempted, and no
partial result list is returned. -/
theorem key_mismatch_rejection (c : EncryptionCodec) (S : Serde)
    (ps1 ps2 r1 : List Payload) (p : Payload)
    (h1 : c.decode S ps1 = .ok r1)
    (h2 : getMeta p "encoding" = marker)
    (h3 : getMeta p "encryption-key-id" ≠ strToBytes c.key_id) :
    c.decode S (ps1 ++ p :: ps2) =
      .error (.keyMismatch (getMeta p "encryption-key-id") (strToBytes c.key_id)) := by
  rw [decode_append, h1, decode_cons_err c S p ps2 _ (decodeOne_mismatch c S p h2 h3)]
  rfl

theorem key_mismatch_rejection_witness :
    toyCodec.decode toySerde [pwM] =
      .error (.keyMismatch (getMeta pwM "encryption-key-id") (strToBytes toyCodec.key_id)) :=
  key_mismatch_rejection toyCodec toySerde [] [] [] pwM rfl rfl (by decide)

/-- C4: Key-length validation at construction. Building a codec from key
material of any length other than 32 bytes fails with the configuration
error before a codec value exists; with exactly 32 bytes it succeeds and
binds the cipher to the key. -/
theorem key_length_validation (mkCipher : Bytes → AEAD) (kid : String) (key : Bytes) :
    (key.length ≠ 32 →
      EncryptionCodec.build mkCipher kid key = .error .invalidKeyLength) ∧
    (key.length = 32 →
      EncryptionCodec.build mkCipher kid key =
        .ok { key_id := kid, encryptor := mkCipher key }) := by
  constructor
  · intro h; simp [EncryptionCodec.build, h]
  · intro h; simp [EncryptionCodec.build, h]

theorem key_length_validation_witness :
    EncryptionCodec.build toyAEAD "default-key" (List.replicate 31 0) =
        .error .invalidKeyLength ∧
    EncryptionCodec.build toyAEAD "default-key" (List.replicate 33 0) =
        .error .invalidKeyLength ∧
    EncryptionCodec.build toyAEAD "default-key" (List.replicate 32 0) = .ok toyCodec :=
  ⟨(key_length_validation toyAEAD "default-key" (List.replicate 31 0)).1 (by decide),
   (key_length_validation toyAEAD "default-key" (List.replicate 33 0)).1 (by decide),
   (key_length_validation toyAEAD "default-key" (List.replicate 32 0)).2 (by decide)⟩

/-- C5: Pass-through. An envelope whose encoding metadata is not the
recognized marker is returned unchanged, byte for byte, at its position,
and whether the batch fails is determined by the other elements alone. -/
theorem pass_through (c : EncryptionCodec) (S : Serde) (ps1 ps2 : List Payload)
    (p : Payload) (h : getMeta p "encoding" ≠ marker) :
    c.decode S (ps1 ++ p :: ps2) =
      (c.decode S ps1).bind
        (fun r1 => (c.decode S ps2).map (fun r2 => r1 ++ p :: r2)) := by
  rw [decode_append, decode_cons_ok c S p p ps2 (decodeOne_pass c S p h)]
  cases c.decode S ps1 <;> cases c.decode S ps2 <;> simp [Except.bind, Except.map]

theorem pass_through_witness :
    toyCodec.decode toySerde ([pwB] ++ pwA :: []) =
      (toyCodec.decode toySerde [pwB]).bind
        (fun r1 => (toyCodec.decode toySerde []).map (fun r2 => r1 ++ pwA :: r2)) :=
  pass_through toyCodec toySerde [pwB] [] pwA (by decide)

/-- C6: Envelope wire shape. The envelope produced for the payload at
position j records the fixed marker under the encoding field and the
codec's key identifier under the encryption-key-id field; its data is the
j-th nonce followed by the ciphertext-plus-tag; and the first 12 bytes and
the remainder of that data are exactly the nonce and the
ciphertext-plus-tag, which is the split decode performs. -/
theorem envelope_wire_shape (c : EncryptionCodec) (S : Serde) (nr : Nat → Bytes)
    (ps : List Payload) (j : Nat) (p : Payload)
    (hn : NonceLen12 nr) (hp : ps[j]? = some p) :
    (c.encode S nr ps)[j]? = some (encodeOne c S (nr j) p) ∧
    (encodeOne c S (nr j) p).metadata =
      [("encoding", marker), ("encryption-key-id", strToBytes c.key_id)] ∧
    (encodeOne c S (nr j) p).data = nr j ++ c.encryptor.encrypt (nr j) (S.ser p) ∧
    (nr j).length = 12 ∧
    (encodeOne c S (nr j) p).data.take 12 = nr j ∧
    (encodeOne c S (nr j) p).data.drop 12 = c.encryptor.encrypt (nr j) (S.ser p) := by
  refine ⟨?_, rfl, rfl, hn j, encodeOne_data_take c S (nr j) p (hn j),
    encodeOne_data_drop c S (nr j) p (hn j)⟩
  exact (by simpa using encodeFrom_getElem c S nr ps 0 j p hp)

theorem envelope_wire_shape_witness :
    (toyCodec.encode toySerde toyNr [pwA])[0]? =
      some (encodeOne toyCodec toySerde (toyNr 0) pwA) ∧
    (encodeOne toyCodec toySerde (toyNr 0) pwA).metadata =
      [("encoding", marker), ("encryption-key-id", strToBytes toyCodec.key_id)] ∧
    (encodeOne toyCodec toySerde (toyNr 0) pwA).data =
      toyNr 0 ++ toyCodec.encryptor.encrypt (toyNr 0) (toySerde.ser pwA) ∧
    (toyNr 0).length = 12 ∧
    (encodeOne toyCodec toySerde (toyNr 0) pwA).data.take 12 = toyNr 0 ∧
    (encodeOne toyCodec toySerde (toyNr 0) pwA).data.drop 12 =
      toyCodec.encryptor.encrypt (toyNr 0) (toySerde.ser pwA) :=
  envelope_wire_shape toyCodec toySerde toyNr [pwA] 0 pwA (fun _ => rfl) rfl

/-- C7: Order preservation and per-message independence. Encode maps a
batch of k payloads to k envelopes where output j is a function of input j
and the j-th nonce alone; a successful decode returns one payload per
input, and the output at position j is the loop body's result on the input
at position j alone. -/
theorem order_preservation (c : EncryptionCodec) (S : Serde) (nr : Nat → Bytes)
    (ps rs : List Payload) (j : Nat) (p : Payload) :
    (c.encode S nr ps).length = ps.length ∧
    (ps[j]? = some p → (c.encode S nr ps)[j]? = some (encodeOne c S (nr j) p)) ∧
    (c.decode S ps = .ok rs →
      rs.length = ps.length ∧
      (ps[j]? = some p → ∃ q, decodeOne c S p = .ok q ∧ rs[j]? = some q)) := by
  refine ⟨encodeFrom_length c S nr ps 0, ?_, ?_⟩
  · intro hp
    exact (by simpa using encodeFrom_getElem c S nr ps 0 j p hp)
  · intro h
    obtain ⟨hlen, hnth⟩ := decode_ok_nth c S ps rs h
    exact ⟨hlen, fun hp => hnth j p hp⟩

theorem order_preservation_witness :
    (toyCodec.encode toySerde toyNr [pwA, pwB])[1]? =
      some (encodeOne toyCodec toySerde (toyNr 1) pwB) ∧
    ∃ q, decodeOne toyCodec toySerde pwB = .ok q ∧
      ([pwA, pwB] : List Payload)[1]? = some q :=
  ⟨(order_preservation toyCodec toySerde toyNr [pwA, pwB] [pwA, pwB] 1 pwB).2.1 rfl,
   ((order_preservation toyCodec toySerde toyNr [pwA, pwB] [pwA, pwB] 1 pwB).2.2 rfl).2 rfl⟩

/-- C8: Key provisioning. An unset key variable fails fast with the
configuration error, and so does one set to the empty string; otherwise
the hex string is decoded to the key bytes handed to the constructor, and
the key identifier defaults to the fixed string when its variable is
unset. -/
theorem key_provisioning (mkCipher : Bytes → AEAD) (env : String → Option String)
    (kh : String) (key : Bytes) :
    (env "TEMPORAL_ENCRYPTION_KEY" = none →
      load_encryption_codec mkCipher env = .error .missingKey) ∧
    (env "TEMPORAL_ENCRYPTION_KEY" = some "" →
      load_encryption_codec mkCipher env = .error .missingKey) ∧
    (env "TEMPORAL_ENCRYPTION_KEY" = some kh → kh ≠ "" → hexDecode kh = some key →
      load_encryption_codec mkCipher env =
        EncryptionCodec.build mkCipher
          ((env "TEMPORAL_ENCRYPTION_KEY_ID").getD "default-key") key) := by
  refine ⟨fun h => by simp [load_encryption_codec, h], fun h => by
    simp [load_encryption_codec, h], fun h1 h2 h3 => by
    simp [load_encryption_codec, h1, h2, h3]⟩

theorem key_provisioning_witness :
    load_encryption_codec toyAEAD envA = .error .missingKey ∧
    load_encryption_codec toyAEAD envB =
      EncryptionCodec.build toyAEAD "default-key" [0] :=
  ⟨(key_provisioning toyAEAD envA "" []).1 rfl,
   (key_provisioning toyAEAD envB "00" [0]).2.2 rfl (by decide) rfl⟩

/-- C9: Decode determinism. Decode is a pure function of the codec's
immutable state and the input batch: two codecs in the same state give
identical results on the same envelope sequence, so a replayed invocation
returns the same payloads. -/
theorem decode_determinism (c1 c2 : EncryptionCodec) (S : Serde) (ps : List Payload)
    (hk : c1.key_id = c2.key_id) (he : c1.encryptor = c2.encryptor) :
    c1.decode S ps = c2.decode S ps := by
  cases c1 with
  | mk k1 e1 =>
    cases c2 with
    | mk k2 e2 =>
      cases hk
      cases he
      rfl

theorem decode_determinism_witness :
    toyCodec.decode toySerde [pwA, pwB] = toyCodec.decode toySerde [pwA, pwB] :=
  decode_determinism toyCodec toyCodec toySerde [pwA, pwB] rfl rfl

/-- C10: An envelope with no encoding metadata entry at all reads as the
empty byte string, which differs from the marker, so decode passes it
through unchanged rather than failing. -/
theorem missing_encoding_passthrough (c : EncryptionCodec) (S : Serde) (p : Payload)
    (ps : List Payload) (h : p.metadata.lookup "encoding" = none) :
    getMeta p "encoding" = [] ∧ ([] : Bytes) ≠ marker ∧
      c.decode S (p :: ps) = (c.decode S ps).map (fun r => p :: r) := by
  have hg : getMeta p "encoding" = [] := by simp [getMeta, h]
  refine ⟨hg, by decide, ?_⟩
  exact decode_cons_ok c S p p ps (decodeOne_pass c S p (by rw [hg]; decide))

theorem missing_encoding_passthrough_witness :
    getMeta pwA "encoding" = [] ∧ ([] : Bytes) ≠ marker ∧
      toyCodec.decode toySerde (pwA :: [pwB]) =
        (toyCodec.decode toySerde [pwB]).map (fun r => pwA :: r) :=
  missing_encoding_passthrough toyCodec toySerde pwA [pwB] rfl

end TemporalEncryption
